import Mathlib

/-!
Verification of the redirect-chain tracer in `app.py`.

The Python program follows HTTP redirects hop by hop.  We embed the pure
content of the program shallowly: an HTTP response becomes a `Response`
(status code plus a header list), the network becomes an environment
`Env : String → Except Unit Response` (`Except.error` models a raised
`requests` exception), and the unbounded `while True` loop of
`check_redirection_chain` becomes a fuel-indexed recursion returning
`none` when the fuel is exhausted (modelling non-termination).
All string handling is ASCII-faithful to the Python source
(`str.lower`, substring `in`, `" | ".join`, `startswith('/')`).
-/

/-- The `Status Code` field of a hop: an integer HTTP status, or one of the
two string sentinels `'Loop'` / `'Error'` used by `check_redirection_chain`. -/
inductive StatusCode where
  | code (n : Nat)
  | loop
  | error
deriving DecidableEq, Repr

/-- One resolved step of a redirect chain: the dict
`{'URL': _, 'Status': _, 'Status Code': _, 'Server': _}` built in `app.py`. -/
structure Hop where
  url : String
  status : String
  statusCode : StatusCode
  server : String
deriving DecidableEq, Repr

/-- An HTTP response as the tracer consumes it: numeric status code and the
response headers (requests exposes a case-insensitive dict; we keep the
item list and do case-insensitive lookups on it). -/
structure Response where
  status : Nat
  headers : List (String × String)
deriving DecidableEq, Repr

/-- The network environment: what `requests.get(url, allow_redirects=False)`
does for each URL.  `Except.error ()` models a raised exception
(DNS/TLS/timeout/invalid URL). -/
abbrev Env : Type := String → Except Unit Response

/-- The `status_names` lookup table of `app.py`. -/
def status_names : List (Nat × String) :=
  [(200, "OK"), (301, "Moved Permanently"), (302, "Found"), (303, "See Other"),
   (307, "Temporary Redirect"), (308, "Permanent Redirect"), (400, "Bad Request"),
   (401, "Unauthorized"), (403, "Forbidden"), (404, "Not Found"),
   (500, "Internal Server Error")]

/-- `status_names.get(status, 'Unknown')`. -/
def statusName (n : Nat) : String :=
  ((status_names.find? (fun p => p.1 == n)).map Prod.snd).getD "Unknown"

/-- ASCII-faithful model of Python `str.lower()`. -/
def lowerAscii (s : String) : String :=
  ⟨s.data.map Char.toLower⟩

/-- Boolean prefix test on character lists (used to build the substring test). -/
def hasPre : List Char → List Char → Bool
  | [], _ => true
  | _ :: _, [] => false
  | a :: as, b :: bs => a == b && hasPre as bs

/-- Boolean contiguous-substring test on character lists: models Python
`pat in s` for strings. -/
def hasSub (pat : List Char) : List Char → Bool
  | [] => pat.isEmpty
  | c :: rest => hasPre pat (c :: rest) || hasSub pat rest

/-- Python `pat in hay` on strings. -/
def containsSub (hay pat : String) : Bool :=
  hasSub pat.data hay.data

/-- Python `" | ".join(items)`. -/
def joinSep : List String → String
  | [] => ""
  | [s] => s
  | s :: t :: rest => s ++ " | " ++ joinSep (t :: rest)

/-- The `akamai_indicators` list of `get_server_name`. -/
def akamai_indicators : List String :=
  ["AkamaiGHost", "akamaitechnologies.com", "X-Akamai-Transformed"]

/-- The `server_headers_priority` list of `get_server_name`. -/
def server_headers_priority : List String :=
  ["Server", "X-Powered-By", "X-Cache", "Via", "CF-RAY", "X-Amz-Cf-Id", "X-CDN"]

/-- Case-insensitive header lookup: `headers.get(name)` on a requests
case-insensitive dict (first matching item wins). -/
def getHeaderCI (headers : List (String × String)) (name : String) : Option String :=
  (headers.find? (fun p => lowerAscii p.1 == lowerAscii name)).map Prod.snd

/-- The `get_server_name` function of `app.py`: Akamai fingerprint search on the
combined `"k: v | k: v"` string (case-insensitive), then the priority header
fallback, then `"Unknown"`. -/
def get_server_name (headers : List (String × String)) : String :=
  let combined := joinSep (headers.map (fun p => p.1 ++ ": " ++ p.2))
  if akamai_indicators.any (fun m => containsSub (lowerAscii combined) (lowerAscii m)) then
    "Akamai"
  else
    match server_headers_priority.find? (fun k => (getHeaderCI headers k).isSome) with
    | some k => k ++ ": " ++ ((getHeaderCI headers k).getD "")
    | none => "Unknown"

/-- The `is_blocked_url` function of `app.py`. -/
def is_blocked_url (url : String) : Bool :=
  containsSub (lowerAscii url) "b2b-b"

/-- The duplicate-and-blocked filtering loop of `app.py` that builds
`urls_unique` from the raw `urls` list. -/
def urls_unique (urls : List String) : List String :=
  urls.foldl
    (fun acc url =>
      if is_blocked_url url then acc
      else if url ∈ acc then acc
      else acc ++ [url])
    []

/-- Split a URL at the first `"://"`, returning the scheme characters and the
characters after the separator. -/
def splitSchemeAux : List Char → Option (List Char × List Char)
  | [] => none
  | ':' :: '/' :: '/' :: rest => some ([], rest)
  | c :: rest => (splitSchemeAux rest).map (fun p => (c :: p.1, p.2))

/-- Character ending the authority (netloc) component of a URL. -/
def netlocEnd (c : Char) : Bool :=
  c == '/' || c == '?' || c == '#'

/-- Model of `urllib.parse.urljoin(base, ref)` for the reference shapes the
tracer passes it (the tracer only calls it when `ref` starts with `'/'`):
a network-path reference `//host/...` inherits the base scheme, and an
absolute-path reference `/...` inherits the base scheme and authority. -/
def urljoin (base ref : String) : String :=
  match ref.data with
  | '/' :: '/' :: _ =>
    match splitSchemeAux base.data with
    | some (scheme, _) => String.mk scheme ++ ":" ++ ref
    | none => ref
  | '/' :: _ =>
    match splitSchemeAux base.data with
    | some (scheme, rest) =>
        String.mk scheme ++ "://" ++ String.mk (rest.takeWhile (fun c => !netlocEnd c)) ++ ref
    | none => ref
  | _ => ref

/-- Python `s.startswith('/')`. -/
def startsWithSlash (s : String) : Bool :=
  match s.data with
  | '/' :: _ => true
  | _ => false

/-- The redirect status codes recognised by the tracer. -/
def redirectCodes : List Nat := [301, 302, 303, 307, 308]

/-- The redirect-target computation inside the loop of
`check_redirection_chain`: for a redirect status, read `Location`; a missing
or empty value stops the chain; a value starting with `'/'` is resolved with
`urljoin`; any other value is used verbatim. -/
def nextUrl (current : String) (resp : Response) : Option String :=
  if resp.status ∈ redirectCodes then
    match getHeaderCI resp.headers "Location" with
    | none => none
    | some loc =>
        if loc = "" then none
        else if startsWithSlash loc then some (urljoin current loc)
        else some loc
  else none

/-- The hop dict appended for a successful response. -/
def mkHop (u : String) (resp : Response) : Hop :=
  { url := u, status := statusName resp.status,
    statusCode := StatusCode.code resp.status, server := get_server_name resp.headers }

/-- The hop dict appended when a loop is detected. -/
def loopHop (u : String) : Hop :=
  { url := u, status := "Loop detected", statusCode := StatusCode.loop, server := "N/A" }

/-- The hop dict appended when the request raises. -/
def errorHop (u : String) : Hop :=
  { url := u, status := "Error", statusCode := StatusCode.error, server := "N/A" }

/-- The `while True` loop of `check_redirection_chain`, indexed by fuel:
`none` means the fuel ran out (the Python loop would still be running).
`visited` is the visited set (as a list, newest first) and `chain` the hops
accumulated so far. -/
def run (env : Env) : Nat → List String → List Hop → String → Option (List Hop)
  | 0, _, _, _ => none
  | fuel + 1, visited, chain, current =>
    if current ∈ visited then
      some (chain ++ [loopHop current])
    else
      match env current with
      | Except.error _ => some (chain ++ [errorHop current])
      | Except.ok resp =>
        match nextUrl current resp with
        | none => some (chain ++ [mkHop current resp])
        | some nxt => run env fuel (current :: visited) (chain ++ [mkHop current resp]) nxt

/-- The `check_redirection_chain` function of `app.py` (fuel-indexed). -/
def check_redirection_chain (env : Env) (fuel : Nat) (url : String) : Option (List Hop) :=
  run env fuel [] [] url

/-- The hop recorded for one successfully requested URL/response pair. -/
def hopOf (p : String × Response) : Hop :=
  mkHop p.1 p.2

/-- `leadsTo env ps s t` says: starting the tracer at URL `s`, the environment
answers the successive requests with the URL/response pairs listed in `ps`,
each a redirect whose extracted target is the next listed URL, ending
positioned at URL `t` (about to be requested). -/
def leadsTo (env : Env) : List (String × Response) → String → String → Prop
  | [], s, t => s = t
  | (u, r) :: ps, s, t =>
      s = u ∧ env u = Except.ok r ∧ ∃ m, nextUrl u r = some m ∧ leadsTo env ps m t

/-- A hop on which the tracer can stop: the loop sentinel, the error
sentinel, or an integer-status hop whose response yields no next URL
(non-redirect status, or redirect without a usable `Location`). -/
def terminalHop (env : Env) (h : Hop) : Prop :=
  h.statusCode = StatusCode.loop ∨ h.statusCode = StatusCode.error ∨
  ∃ m r, h.statusCode = StatusCode.code m ∧ env h.url = Except.ok r ∧ nextUrl h.url r = none

/-- The terminal classification asserted verbatim by the specification for
the last hop: `Loop`, `Error`, or a non-redirect integer status. -/
def claimedTerminal (sc : StatusCode) : Bool :=
  match sc with
  | StatusCode.loop => true
  | StatusCode.error => true
  | StatusCode.code m => !(redirectCodes.contains m)

/-- Environment answering every URL with a bare `301` and no headers: a
redirect without a usable `Location`. -/
def env301 : Env := fun _ => Except.ok ⟨301, []⟩

/-- Environment answering every URL with `301 Location: https://s.test/`,
so that `https://s.test/` redirects to itself. -/
def envSelf : Env := fun _ => Except.ok ⟨301, [("Location", "https://s.test/")]⟩

/-- Environment in which the starting URL answers a redirect whose
`Location` is the relative reference `new-path`; any other requested URL
raises (as `requests.get("new-path")` does). -/
def envRel : Env := fun u =>
  if u = "https://a.example/old" then Except.ok ⟨301, [("Location", "new-path")]⟩
  else Except.error ()

/-- Environment realising the three-hop scenario of the specification:
`/start` answers `301 Location: /step2`, `/step2` answers
`302 Location: https://b.test/final`, and the final URL answers `200`. -/
def envScenario : Env := fun u =>
  if u = "https://a.test/start" then Except.ok ⟨301, [("Location", "/step2")]⟩
  else if u = "https://a.test/step2" then Except.ok ⟨302, [("Location", "https://b.test/final")]⟩
  else if u = "https://b.test/final" then Except.ok ⟨200, []⟩
  else Except.error ()

/-- Environment whose every request raises. -/
def envErr : Env := fun _ => Except.error ()

/-- One row of the summary sheet, as built by the `summary_rows` loop of
`app.py`: original URL, final URL, final status code, final server. -/
structure SummaryRow where
  originalUrl : String
  finalUrl : String
  statusCode : StatusCode
  server : String
deriving DecidableEq, Repr

/-- One row of the per-hop detail sheet, as built by the `all_rows` loop of
`app.py`. -/
structure DetailRow where
  originalUrl : String
  redirectStep : Nat
  redirectedUrl : String
  statusCode : StatusCode
  statusDescription : String
  server : String
deriving DecidableEq, Repr

/-- The summary row derived from one chain (`summary_rows` loop body):
`chain[-1]` if the chain is non-empty, else the synthesized error step. -/
def summary_row (orig : String) (chain : List Hop) : SummaryRow :=
  match chain.getLast? with
  | some fin => ⟨orig, fin.url, fin.statusCode, fin.server⟩
  | none => ⟨orig, orig, StatusCode.error, "N/A"⟩

/-- The `for idx, step in enumerate(chain)` loop body of the `all_rows`
construction, carrying the running index. -/
def all_rows_from (orig : String) : Nat → List Hop → List DetailRow
  | _, [] => []
  | idx, h :: t =>
      ⟨orig, idx + 1, h.url, h.statusCode, h.status, h.server⟩ :: all_rows_from orig (idx + 1) t

/-- The detail rows derived from one chain (`all_rows` loop of `app.py`). -/
def all_rows_for (orig : String) (chain : List Hop) : List DetailRow :=
  all_rows_from orig 0 chain

/-- Reference description of the dispatch-list construction following the
claim's words: drop every blocked URL and keep the first occurrence of each
remaining distinct URL in input order. -/
def keepFirstNonBlocked : List String → List String
  | [] => []
  | u :: rest =>
    if is_blocked_url u then keepFirstNonBlocked rest
    else u :: keepFirstNonBlocked (rest.filter (fun v => v != u))
termination_by l => l.length
decreasing_by
  · simp only [List.length_cons]
    omega
  · simp only [List.length_cons]
    exact Nat.lt_succ_of_le (List.length_filter_le _ _)

/-- Reference description of `get_server_name` following the claim's words:
search the CDN fingerprints case-insensitively in each header name and each
header value; on a match report `"Akamai"`; otherwise report from the first
present priority header; otherwise `"Unknown"`. -/
def serverNameSpec (headers : List (String × String)) : String :=
  if headers.any (fun p => akamai_indicators.any (fun m =>
      containsSub (lowerAscii p.1) (lowerAscii m) ||
      containsSub (lowerAscii p.2) (lowerAscii m))) then
    "Akamai"
  else
    match server_headers_priority.find? (fun k => (getHeaderCI headers k).isSome) with
    | some k => k ++ ": " ++ ((getHeaderCI headers k).getD "")
    | none => "Unknown"

/-- Unfolding equation for one iteration of the tracer loop. -/
theorem run_succ (env : Env) (fuel : Nat) (visited : List String) (chain : List Hop)
    (current : String) :
    run env (fuel + 1) visited chain current =
      if current ∈ visited then
        some (chain ++ [loopHop current])
      else
        match env current with
        | Except.error _ => some (chain ++ [errorHop current])
        | Except.ok resp =>
          match nextUrl current resp with
          | none => some (chain ++ [mkHop current resp])
          | some nxt => run env fuel (current :: visited) (chain ++ [mkHop current resp]) nxt :=
  rfl

/-- A revisited URL stops the loop with a `Loop` hop. -/
theorem run_succ_revisit {visited : List String} {current : String}
    (env : Env) (fuel : Nat) (chain : List Hop) (h : current ∈ visited) :
    run env (fuel + 1) visited chain current = some (chain ++ [loopHop current]) := by
  rw [run_succ]
  simp [h]

/-- A raising request stops the loop with an `Error` hop. -/
theorem run_succ_raise {visited : List String} {current : String}
    (env : Env) (fuel : Nat) (chain : List Hop)
    (h : current ∉ visited) (he : env current = Except.error ()) :
    run env (fuel + 1) visited chain current = some (chain ++ [errorHop current]) := by
  rw [run_succ]
  simp [h, he]

/-- A response with no next URL stops the loop with the response's own hop. -/
theorem run_succ_final {visited : List String} {current : String} {resp : Response}
    (env : Env) (fuel : Nat) (chain : List Hop)
    (h : current ∉ visited) (he : env current = Except.ok resp)
    (hn : nextUrl current resp = none) :
    run env (fuel + 1) visited chain current = some (chain ++ [mkHop current resp]) := by
  rw [run_succ]
  simp [h, he, hn]

/-- A redirect with a next URL appends the hop and continues. -/
theorem run_succ_step {visited : List String} {current nxt : String} {resp : Response}
    (env : Env) (fuel : Nat) (chain : List Hop)
    (h : current ∉ visited) (he : env current = Except.ok resp)
    (hn : nextUrl current resp = some nxt) :
    run env (fuel + 1) visited chain current =
      run env fuel (current :: visited) (chain ++ [mkHop current resp]) nxt := by
  rw [run_succ]
  simp [h, he, hn]

/-- Master unfolding lemma: a valid path of fresh, pairwise-distinct URLs is
consumed hop by hop, appending exactly its hops and marking its URLs visited. -/
theorem run_append (env : Env) (ps : List (String × Response)) :
    ∀ (visited : List String) (chain : List Hop) (s t : String) (fuel : Nat),
      leadsTo env ps s t →
      (ps.map Prod.fst).Nodup →
      (∀ u ∈ ps.map Prod.fst, u ∉ visited) →
      run env (ps.length + fuel) visited chain s =
        run env fuel ((ps.map Prod.fst).reverse ++ visited) (chain ++ ps.map hopOf) t := by
  induction ps with
  | nil =>
    intro visited chain s t fuel hlead _ _
    have hst : s = t := hlead
    subst hst
    simp
  | cons p ps ih =>
    intro visited chain s t fuel hlead hnd hdisj
    obtain ⟨u, r⟩ := p
    obtain ⟨hs, hok, m, hnext, htail⟩ := hlead
    rw [hs]
    have hlen : ((u, r) :: ps).length + fuel = (ps.length + fuel) + 1 := by
      simp [Nat.add_assoc, Nat.add_comm fuel 1]
    rw [hlen]
    have hu : u ∉ visited := hdisj u (by simp)
    rw [run_succ_step env (ps.length + fuel) chain hu hok hnext]
    have hnd' : (ps.map Prod.fst).Nodup := by
      simp only [List.map_cons, List.nodup_cons] at hnd
      exact hnd.2
    have hfst : u ∉ ps.map Prod.fst := by
      simp only [List.map_cons, List.nodup_cons] at hnd
      exact hnd.1
    have hdisj' : ∀ v ∈ ps.map Prod.fst, v ∉ u :: visited := by
      intro v hv
      simp only [List.mem_cons]
      push_neg
      constructor
      · intro hvu
        exact hfst (hvu ▸ hv)
      · exact hdisj v (by simp [hv])
    rw [ih (u :: visited) (chain ++ [mkHop u r]) m t fuel htail hnd' hdisj']
    simp [hopOf, List.append_assoc]

/-- If the loop exhausts its fuel, the environment produced `fuel` successive
redirect steps through pairwise-distinct URLs none of which was visited. -/
theorem run_none_path (env : Env) :
    ∀ (fuel : Nat) (visited : List String) (chain : List Hop) (current : String),
      run env fuel visited chain current = none →
      ∃ ps t, leadsTo env ps current t ∧ ps.length = fuel ∧
        (ps.map Prod.fst).Nodup ∧ ∀ u ∈ ps.map Prod.fst, u ∉ visited := by
  intro fuel
  induction fuel with
  | zero =>
    intro visited chain current _
    exact ⟨[], current, rfl, rfl, by simp, by simp⟩
  | succ fuel ih =>
    intro visited chain current hnone
    by_cases hv : current ∈ visited
    · rw [run_succ_revisit env fuel chain hv] at hnone
      cases hnone
    · cases he : env current with
      | error e =>
        cases e
        rw [run_succ_raise env fuel chain hv he] at hnone
        cases hnone
      | ok resp =>
        cases hn : nextUrl current resp with
        | none =>
          rw [run_succ_final env fuel chain hv he hn] at hnone
          cases hnone
        | some nxt =>
          rw [run_succ_step env fuel chain hv he hn] at hnone
          obtain ⟨ps, t, hlead, hlen, hnd, hdisj⟩ :=
            ih (current :: visited) (chain ++ [mkHop current resp]) nxt hnone
          refine ⟨(current, resp) :: ps, t, ⟨rfl, he, nxt, hn, hlead⟩, by simp [hlen], ?_, ?_⟩
          · simp only [List.map_cons, List.nodup_cons]
            exact ⟨fun hmem => (hdisj current hmem) (by simp), hnd⟩
          · intro u hu
            simp only [List.map_cons, List.mem_cons] at hu
            rcases hu with rfl | hu
            · exact hv
            · intro hvis
              exact (hdisj u hu) (by simp [hvis])

/-- The environment determines the path: a longer valid path extends any
shorter one starting at the same URL. -/
theorem leadsTo_det (env : Env) :
    ∀ (ps qs : List (String × Response)) (s t v : String),
      leadsTo env ps s t → leadsTo env qs s v → ps.length ≤ qs.length →
      ∃ rest, qs = ps ++ rest ∧ leadsTo env rest t v := by
  intro ps
  induction ps with
  | nil =>
    intro qs s t v hp hq _
    have hst : s = t := hp
    exact ⟨qs, by simp, hst ▸ hq⟩
  | cons p ps ih =>
    intro qs s t v hp hq hlen
    obtain ⟨u, r⟩ := p
    obtain ⟨hs, hok, m, hnext, htail⟩ := hp
    cases qs with
    | nil => simp at hlen
    | cons q qs =>
      obtain ⟨u2, r2⟩ := q
      obtain ⟨hs2, hok2, m2, hnext2, htail2⟩ := hq
      have hu : u2 = u := hs2.symm.trans hs
      have hr : r2 = r := by
        rw [hu] at hok2
        have h2 : (Except.ok r2 : Except Unit Response) = Except.ok r := hok2.symm.trans hok
        exact Except.ok.inj h2
      have hm : m2 = m := by
        rw [hu, hr] at hnext2
        have h2 : some m2 = some m := hnext2.symm.trans hnext
        exact Option.some.inj h2
      rw [hm] at htail2
      obtain ⟨rest, hqs, hrest⟩ :=
        ih qs m t v htail htail2 (by simpa using hlen)
      exact ⟨rest, by simp [hqs, hu, hr], hrest⟩

/-- Whenever the loop returns, the returned chain is non-empty and its last
hop is terminal. -/
theorem run_some_terminal (env : Env) :
    ∀ (fuel : Nat) (visited : List String) (chain : List Hop) (current : String) (c : List Hop),
      run env fuel visited chain current = some c →
      c ≠ [] ∧ ∃ last, c.getLast? = some last ∧ terminalHop env last := by
  intro fuel
  induction fuel with
  | zero =>
    intro visited chain current c h
    cases h
  | succ fuel ih =>
    intro visited chain current c hsome
    by_cases hv : current ∈ visited
    · rw [run_succ_revisit env fuel chain hv] at hsome
      obtain rfl : chain ++ [loopHop current] = c := Option.some.inj hsome
      refine ⟨by simp, loopHop current, List.getLast?_concat _, Or.inl rfl⟩
    · cases he : env current with
      | error e =>
        cases e
        rw [run_succ_raise env fuel chain hv he] at hsome
        obtain rfl : chain ++ [errorHop current] = c := Option.some.inj hsome
        refine ⟨by simp, errorHop current, List.getLast?_concat _, Or.inr (Or.inl rfl)⟩
      | ok resp =>
        cases hn : nextUrl current resp with
        | none =>
          rw [run_succ_final env fuel chain hv he hn] at hsome
          obtain rfl : chain ++ [mkHop current resp] = c := Option.some.inj hsome
          exact ⟨by simp, mkHop current resp, List.getLast?_concat _,
            Or.inr (Or.inr ⟨resp.status, resp, rfl, he, hn⟩)⟩
        | some nxt =>
          rw [run_succ_step env fuel chain hv he hn] at hsome
          exact ih (current :: visited) (chain ++ [mkHop current resp]) nxt c hsome

/-- C1 counterexample: with every response `301` and no `Location` header —
an environment satisfying the claim's own hypothesis (eventually a redirect
without a usable `Location`) — the tracer returns a one-hop chain whose last
hop carries the redirect status `301`, which is neither `Loop`, `Error`, nor
a non-redirect integer status. -/
theorem c1_counterexample :
    check_redirection_chain env301 1 "https://x.test/" =
      some [⟨"https://x.test/", "Moved Permanently", StatusCode.code 301, "Unknown"⟩] ∧
    env301 "https://x.test/" = Except.ok ⟨301, []⟩ ∧
    301 ∈ redirectCodes ∧
    getHeaderCI ([] : List (String × String)) "Location" = none ∧
    claimedTerminal (StatusCode.code 301) = false := by
  refine ⟨by decide, rfl, by decide, rfl, by decide⟩

/-- C1 (amended): for every starting URL and environment under which the
redirect chain eventually revisits a URL, eventually yields a response with
no next hop (non-redirect status, or redirect without a usable `Location`),
or eventually fails with a transport error, `check_redirection_chain`
terminates and returns a finite, non-empty chain whose last hop has status
code `Loop`, `Error`, or an integer status whose response permitted no
further hop; it never returns an empty list. -/
theorem check_redirection_chain_terminates (env : Env) (url : String)
    (ps : List (String × Response)) (w : String)
    (hlead : leadsTo env ps url w)
    (hstop : ¬ (ps.map Prod.fst ++ [w]).Nodup ∨ env w = Except.error () ∨
      ∃ r, env w = Except.ok r ∧ nextUrl w r = none) :
    ∃ c, check_redirection_chain env (ps.length + 1) url = some c ∧ c ≠ [] ∧
      ∃ last, c.getLast? = some last ∧ terminalHop env last := by
  cases hres : run env (ps.length + 1) [] [] url with
  | none =>
    exfalso
    obtain ⟨qs, t, hq, hqlen, hqnd, _⟩ := run_none_path env (ps.length + 1) [] [] url hres
    obtain ⟨rest, hqs, hrest⟩ := leadsTo_det env ps qs url w t hlead hq (by omega)
    have hrlen : rest.length = 1 := by
      have hl2 := congrArg List.length hqs
      simp only [List.length_append] at hl2
      omega
    obtain ⟨⟨w2, r2⟩, hrest1⟩ := List.length_eq_one.mp hrlen
    rw [hrest1] at hrest
    obtain ⟨hww, hok2, m, hm, _⟩ := hrest
    rw [← hww] at hok2 hm
    rcases hstop with hnd | herr | ⟨r, hokr, hnone⟩
    · apply hnd
      have hqfst : qs.map Prod.fst = ps.map Prod.fst ++ [w] := by
        rw [hqs, hrest1, List.map_append]
        simp [← hww]
      rw [← hqfst]
      exact hqnd
    · rw [herr] at hok2
      exact Except.noConfusion hok2
    · rw [hokr] at hok2
      have hr : r = r2 := Except.ok.inj hok2
      rw [← hr] at hm
      rw [hnone] at hm
      exact Option.noConfusion hm
  | some c =>
    obtain ⟨hne, last, hlast, hterm⟩ := run_some_terminal env (ps.length + 1) [] [] url c hres
    exact ⟨c, hres, hne, last, hlast, hterm⟩

/-- Witness for C1 at a concrete input: the loop environment `env301`
satisfies the hypotheses with the empty path. -/
theorem c1_witness :
    ∃ c, check_redirection_chain env301 (List.length ([] : List (String × Response)) + 1)
        "https://x.test/" = some c ∧ c ≠ [] ∧
      ∃ last, c.getLast? = some last ∧ terminalHop env301 last :=
  check_redirection_chain_terminates env301 "https://x.test/" [] "https://x.test/" rfl
    (Or.inr (Or.inr ⟨⟨301, []⟩, rfl, by decide⟩))

/-- C2 counterexample: for a hop redirecting to itself the tracer does
produce a two-hop chain ending in a `Loop` hop with server `"N/A"`, but the
status label it stores is `"Loop detected"`, not the `"Redirect Loop"`
asserted by the claim. -/
theorem c2_counterexample :
    check_redirection_chain envSelf 2 "https://s.test/" =
      some [⟨"https://s.test/", "Moved Permanently", StatusCode.code 301, "Unknown"⟩,
            ⟨"https://s.test/", "Loop detected", StatusCode.loop, "N/A"⟩] ∧
    (⟨"https://s.test/", "Loop detected", StatusCode.loop, "N/A"⟩ : Hop).status ≠
      "Redirect Loop" := by
  refine ⟨by decide, by decide⟩

/-- C2 (amended): if the URL to be requested at hop `k` was already
requested at one of hops `0..k-1`, the chain terminates at hop `k` with
length exactly `k+1`, and the final hop has status code `Loop`, server
`"N/A"`, and status label `"Loop detected"`. -/
theorem check_loop_detection (env : Env) (url : String)
    (ps : List (String × Response)) (w : String) (extra : Nat)
    (hlead : leadsTo env ps url w)
    (hnd : (ps.map Prod.fst).Nodup)
    (hw : w ∈ ps.map Prod.fst) :
    check_redirection_chain env (ps.length + 1 + extra) url =
      some (ps.map hopOf ++ [loopHop w]) ∧
    (ps.map hopOf ++ [loopHop w]).length = ps.length + 1 ∧
    (ps.map hopOf ++ [loopHop w]).getLast? = some (loopHop w) ∧
    loopHop w = ⟨w, "Loop detected", StatusCode.loop, "N/A"⟩ := by
  refine ⟨?_, by simp, List.getLast?_concat _, rfl⟩
  show run env (ps.length + 1 + extra) [] [] url = _
  have h1 : ps.length + 1 + extra = ps.length + (extra + 1) := by omega
  rw [h1, run_append env ps [] [] url w (extra + 1) hlead hnd (by simp)]
  have hmem : w ∈ (ps.map Prod.fst).reverse ++ ([] : List String) := by simp [hw]
  rw [run_succ_revisit env extra ([] ++ ps.map hopOf) hmem]
  simp

/-- Witness for C2 at the specification's own scenario: a hop whose
`Location` equals the requesting URL produces a two-hop chain ending in the
loop hop. -/
theorem c2_witness :
    check_redirection_chain envSelf
        (List.length [("https://s.test/", Response.mk 301 [("Location", "https://s.test/")])]
          + 1 + 0) "https://s.test/" =
      some ([("https://s.test/", Response.mk 301 [("Location", "https://s.test/")])].map hopOf
        ++ [loopHop "https://s.test/"]) :=
  (check_loop_detection envSelf "https://s.test/"
    [("https://s.test/", Response.mk 301 [("Location", "https://s.test/")])]
    "https://s.test/" 0
    ⟨rfl, rfl, "https://s.test/", by decide, rfl⟩ (by decide) (by decide)).1

/-- C4: a response whose status is not one of `301, 302, 303, 307, 308` at
hop `k` terminates the chain at length exactly `k+1`, with that response's
hop last and no further request issued (the result is the same for any
surplus fuel). -/
theorem check_nonredirect_termination (env : Env) (url : String)
    (ps : List (String × Response)) (w : String) (r : Response) (extra : Nat)
    (hlead : leadsTo env ps url w)
    (hnd : (ps.map Prod.fst).Nodup)
    (hwnew : w ∉ ps.map Prod.fst)
    (hok : env w = Except.ok r)
    (hnr : r.status ∉ redirectCodes) :
    check_redirection_chain env (ps.length + 1 + extra) url =
      some (ps.map hopOf ++ [mkHop w r]) ∧
    (ps.map hopOf ++ [mkHop w r]).length = ps.length + 1 ∧
    (ps.map hopOf ++ [mkHop w r]).getLast? = some (mkHop w r) := by
  refine ⟨?_, by simp, List.getLast?_concat _⟩
  show run env (ps.length + 1 + extra) [] [] url = _
  have h1 : ps.length + 1 + extra = ps.length + (extra + 1) := by omega
  rw [h1, run_append env ps [] [] url w (extra + 1) hlead hnd (by simp)]
  have hnot : w ∉ (ps.map Prod.fst).reverse ++ ([] : List String) := by simp [hwnew]
  have hnone : nextUrl w r = none := by simp [nextUrl, hnr]
  rw [run_succ_final env extra ([] ++ ps.map hopOf) hnot hok hnone]
  simp

/-- Witness for C4 at the specification's three-hop scenario: statuses
`[301, 302, 200]` and final URL `https://b.test/final`. -/
theorem c4_witness :
    check_redirection_chain envScenario
        (List.length [("https://a.test/start", Response.mk 301 [("Location", "/step2")]),
          ("https://a.test/step2", Response.mk 302 [("Location", "https://b.test/final")])]
          + 1 + 0) "https://a.test/start" =
      some ([("https://a.test/start", Response.mk 301 [("Location", "/step2")]),
        ("https://a.test/step2", Response.mk 302 [("Location", "https://b.test/final")])].map hopOf
        ++ [mkHop "https://b.test/final" (Response.mk 200 [])]) ∧
    ([("https://a.test/start", Response.mk 301 [("Location", "/step2")]),
      ("https://a.test/step2", Response.mk 302 [("Location", "https://b.test/final")])].map hopOf
      ++ [mkHop "https://b.test/final" (Response.mk 200 [])]).map Hop.statusCode =
      [StatusCode.code 301, StatusCode.code 302, StatusCode.code 200] ∧
    ([("https://a.test/start", Response.mk 301 [("Location", "/step2")]),
      ("https://a.test/step2", Response.mk 302 [("Location", "https://b.test/final")])].map hopOf
      ++ [mkHop "https://b.test/final" (Response.mk 200 [])]).map Hop.url =
      ["https://a.test/start", "https://a.test/step2", "https://b.test/final"] :=
  ⟨(check_nonredirect_termination envScenario "https://a.test/start"
      [("https://a.test/start", Response.mk 301 [("Location", "/step2")]),
       ("https://a.test/step2", Response.mk 302 [("Location", "https://b.test/final")])]
      "https://b.test/final" (Response.mk 200 []) 0
      ⟨rfl, rfl, "https://a.test/step2", by decide, rfl, rfl, "https://b.test/final",
        by decide, rfl⟩
      (by decide) (by decide) rfl (by decide)).1,
    by decide, by decide⟩

/-- C5: when the request for the URL at hop `k` raises (transport, DNS, TLS
or timeout failure), the tracer returns normally: the hops accumulated so
far are unchanged and one final hop is appended with URL equal to the
failing URL, status `"Error"`, status code `Error`, and server `"N/A"`. -/
theorem check_error_termination (env : Env) (url : String)
    (ps : List (String × Response)) (w : String) (extra : Nat)
    (hlead : leadsTo env ps url w)
    (hnd : (ps.map Prod.fst).Nodup)
    (hwnew : w ∉ ps.map Prod.fst)
    (herr : env w = Except.error ()) :
    check_redirection_chain env (ps.length + 1 + extra) url =
      some (ps.map hopOf ++ [errorHop w]) ∧
    (ps.map hopOf ++ [errorHop w]).getLast? = some (errorHop w) ∧
    errorHop w = ⟨w, "Error", StatusCode.error, "N/A"⟩ := by
  refine ⟨?_, List.getLast?_concat _, rfl⟩
  show run env (ps.length + 1 + extra) [] [] url = _
  have h1 : ps.length + 1 + extra = ps.length + (extra + 1) := by omega
  rw [h1, run_append env ps [] [] url w (extra + 1) hlead hnd (by simp)]
  have hnot : w ∉ (ps.map Prod.fst).reverse ++ ([] : List String) := by simp [hwnew]
  rw [run_succ_raise env extra ([] ++ ps.map hopOf) hnot herr]
  simp

/-- Witness for C5: one successful redirect hop followed by a raising
request keeps the first hop unchanged and appends the error hop. -/
theorem c5_witness :
    check_redirection_chain envRel
        (List.length [("https://a.example/old", Response.mk 301 [("Location", "new-path")])]
          + 1 + 0) "https://a.example/old" =
      some ([("https://a.example/old", Response.mk 301 [("Location", "new-path")])].map hopOf
        ++ [errorHop "new-path"]) :=
  (check_error_termination envRel "https://a.example/old"
    [("https://a.example/old", Response.mk 301 [("Location", "new-path")])] "new-path" 0
    ⟨rfl, rfl, "new-path", by decide, rfl⟩ (by decide) (by decide) rfl).1

/-- C6: a redirect response with no usable `Location` (absent or empty)
terminates the chain normally at that hop: the redirect-status hop is the
last element, no error hop is appended, and no further request is issued
(the result is the same for any surplus fuel). -/
theorem check_missing_location_termination (env : Env) (url : String)
    (ps : List (String × Response)) (w : String) (r : Response) (extra : Nat)
    (hlead : leadsTo env ps url w)
    (hnd : (ps.map Prod.fst).Nodup)
    (hwnew : w ∉ ps.map Prod.fst)
    (hok : env w = Except.ok r)
    (hred : r.status ∈ redirectCodes)
    (hloc : getHeaderCI r.headers "Location" = none ∨
      getHeaderCI r.headers "Location" = some "") :
    check_redirection_chain env (ps.length + 1 + extra) url =
      some (ps.map hopOf ++ [mkHop w r]) ∧
    (ps.map hopOf ++ [mkHop w r]).getLast? = some (mkHop w r) ∧
    (mkHop w r).statusCode = StatusCode.code r.status := by
  refine ⟨?_, List.getLast?_concat _, rfl⟩
  show run env (ps.length + 1 + extra) [] [] url = _
  have h1 : ps.length + 1 + extra = ps.length + (extra + 1) := by omega
  rw [h1, run_append env ps [] [] url w (extra + 1) hlead hnd (by simp)]
  have hnot : w ∉ (ps.map Prod.fst).reverse ++ ([] : List String) := by simp [hwnew]
  have hnone : nextUrl w r = none := by
    rcases hloc with h | h <;> simp [nextUrl, hred, h]
  rw [run_succ_final env extra ([] ++ ps.map hopOf) hnot hok hnone]
  simp

/-- Witness for C6: an immediate `301` with no headers ends the chain with
the redirect hop itself as the only and last element. -/
theorem c6_witness :
    check_redirection_chain env301
        (List.length ([] : List (String × Response)) + 1 + 0) "https://x.test/" =
      some (([] : List (String × Response)).map hopOf
        ++ [mkHop "https://x.test/" (Response.mk 301 [])]) :=
  (check_missing_location_termination env301 "https://x.test/" [] "https://x.test/"
    (Response.mk 301 []) 0 rfl (by decide) (by decide) rfl (by decide) (Or.inl rfl)).1

/-- Loop invariant for URL distinctness: if the accumulated chain's URLs are
exactly the visited set (in visit order) and are distinct, then any returned
chain has pairwise-distinct URLs except possibly at the last hop, and a
duplicated last URL occurs only on a `Loop` hop, matching exactly one
earlier hop. -/
theorem run_url_nodup (env : Env) :
    ∀ (fuel : Nat) (visited : List String) (chain : List Hop) (current : String) (c : List Hop),
      chain.map Hop.url = visited.reverse → visited.Nodup →
      run env fuel visited chain current = some c →
      (c.dropLast.map Hop.url).Nodup ∧
      ∀ last, c.getLast? = some last → last.url ∈ c.dropLast.map Hop.url →
        last.statusCode = StatusCode.loop ∧ (c.dropLast.map Hop.url).count last.url = 1 := by
  intro fuel
  induction fuel with
  | zero =>
    intro visited chain current c _ _ h
    cases h
  | succ fuel ih =>
    intro visited chain current c hmap hvnd hsome
    by_cases hv : current ∈ visited
    · rw [run_succ_revisit env fuel chain hv] at hsome
      obtain rfl : chain ++ [loopHop current] = c := Option.some.inj hsome
      rw [List.dropLast_concat, hmap]
      refine ⟨by simp [hvnd], ?_⟩
      intro last hlast hmem
      have hl : last = loopHop current := by
        rw [List.getLast?_concat] at hlast
        exact (Option.some.inj hlast).symm
      subst hl
      refine ⟨rfl, ?_⟩
      exact List.count_eq_one_of_mem (by simp [hvnd]) hmem
    · cases he : env current with
      | error e =>
        cases e
        rw [run_succ_raise env fuel chain hv he] at hsome
        obtain rfl : chain ++ [errorHop current] = c := Option.some.inj hsome
        rw [List.dropLast_concat, hmap]
        refine ⟨by simp [hvnd], ?_⟩
        intro last hlast hmem
        have hl : last = errorHop current := by
          rw [List.getLast?_concat] at hlast
          exact (Option.some.inj hlast).symm
        subst hl
        exfalso
        apply hv
        have : current ∈ visited.reverse := hmem
        simpa using this
      | ok resp =>
        cases hn : nextUrl current resp with
        | none =>
          rw [run_succ_final env fuel chain hv he hn] at hsome
          obtain rfl : chain ++ [mkHop current resp] = c := Option.some.inj hsome
          rw [List.dropLast_concat, hmap]
          refine ⟨by simp [hvnd], ?_⟩
          intro last hlast hmem
          have hl : last = mkHop current resp := by
            rw [List.getLast?_concat] at hlast
            exact (Option.some.inj hlast).symm
          subst hl
          exfalso
          apply hv
          have : current ∈ visited.reverse := hmem
          simpa using this
        | some nxt =>
          rw [run_succ_step env fuel chain hv he hn] at hsome
          refine ih (current :: visited) (chain ++ [mkHop current resp]) nxt c ?_ ?_ hsome
          · rw [List.map_append, hmap, List.reverse_cons]
            rfl
          · exact List.nodup_cons.mpr ⟨hv, hvnd⟩

/-- C10: in every chain returned by `check_redirection_chain` the URLs of
all hops except the last are pairwise distinct, and the last hop's URL
duplicates an earlier hop's URL only when its status code is `Loop`, in
which case it equals exactly one earlier hop's URL. -/
theorem check_chain_url_invariant (env : Env) (fuel : Nat) (url : String) (c : List Hop)
    (h : check_redirection_chain env fuel url = some c) :
    (c.dropLast.map Hop.url).Nodup ∧
    ∀ last, c.getLast? = some last → last.url ∈ c.dropLast.map Hop.url →
      last.statusCode = StatusCode.loop ∧ (c.dropLast.map Hop.url).count last.url = 1 :=
  run_url_nodup env fuel [] [] url c (by simp) (by simp) h

/-- Witness for C10 on the self-redirect environment: the two-hop chain has
a distinct-URL body, and its duplicated last URL is the `Loop` hop matching
exactly one earlier hop. -/
theorem c10_witness :
    (([⟨"https://s.test/", "Moved Permanently", StatusCode.code 301, "Unknown"⟩,
       ⟨"https://s.test/", "Loop detected", StatusCode.loop, "N/A"⟩] :
        List Hop).dropLast.map Hop.url).Nodup :=
  (check_chain_url_invariant envSelf 2 "https://s.test/"
    [⟨"https://s.test/", "Moved Permanently", StatusCode.code 301, "Unknown"⟩,
     ⟨"https://s.test/", "Loop detected", StatusCode.loop, "N/A"⟩] (by decide)).1

/-- C3 counterexample: for the relative reference `new-path` (no leading
slash) answered from `https://a.example/old`, standard URL resolution would
give `https://a.example/new-path`, but the tracer uses the value verbatim:
the next hop is requested at the literal URL `new-path` (whose request then
raises), not at the resolved URL. -/
theorem c3_counterexample :
    nextUrl "https://a.example/old" ⟨301, [("Location", "new-path")]⟩ = some "new-path" ∧
    "new-path" ≠ "https://a.example/new-path" ∧
    check_redirection_chain envRel 2 "https://a.example/old" =
      some [⟨"https://a.example/old", "Moved Permanently", StatusCode.code 301, "Unknown"⟩,
            ⟨"new-path", "Error", StatusCode.error, "N/A"⟩] := by
  refine ⟨by decide, by decide, by decide⟩

/-- C3 (amended): for a redirect response with a usable `Location`, the
tracer resolves the value against the current URL (via `urljoin`) only when
it begins with `'/'`; any other value — absolute or relative — is used
verbatim as the next hop's URL. -/
theorem nextUrl_resolution (current loc : String) (r : Response)
    (hred : r.status ∈ redirectCodes)
    (hloc : getHeaderCI r.headers "Location" = some loc)
    (hne : loc ≠ "") :
    nextUrl current r = some (if startsWithSlash loc then urljoin current loc else loc) := by
  simp only [nextUrl, if_pos hred, hloc, if_neg hne]
  by_cases hs : startsWithSlash loc
  · simp [hs]
  · simp [hs]

/-- Witness for C3 at the specification's example: `Location: /new-path`
from `https://a.example/old` resolves to `https://a.example/new-path`. -/
theorem c3_witness :
    nextUrl "https://a.example/old" ⟨301, [("Location", "/new-path")]⟩ =
      some (if startsWithSlash "/new-path" then urljoin "https://a.example/old" "/new-path"
        else "/new-path") ∧
    urljoin "https://a.example/old" "/new-path" = "https://a.example/new-path" :=
  ⟨nextUrl_resolution "https://a.example/old" "/new-path" ⟨301, [("Location", "/new-path")]⟩
      (by decide) rfl (by decide),
    by decide⟩

/-- The detail-row loop produces one row per hop. -/
theorem all_rows_from_length (orig : String) :
    ∀ (chain : List Hop) (k : Nat), (all_rows_from orig k chain).length = chain.length := by
  intro chain
  induction chain with
  | nil => intro k; rfl
  | cons h t ih => intro k; simp [all_rows_from, ih]

/-- The `i`-th detail row copies the `i`-th hop with 1-based step `k+i+1`. -/
theorem all_rows_from_getElem (orig : String) :
    ∀ (chain : List Hop) (k i : Nat) (h : Hop), chain[i]? = some h →
      (all_rows_from orig k chain)[i]? =
        some ⟨orig, k + i + 1, h.url, h.statusCode, h.status, h.server⟩ := by
  intro chain
  induction chain with
  | nil =>
    intro k i h hh
    simp at hh
  | cons x t ih =>
    intro k i h hh
    cases i with
    | zero =>
      obtain rfl : x = h := by simpa using hh
      simp [all_rows_from]
    | succ i =>
      have hh2 : t[i]? = some h := by simpa using hh
      have := ih (k + 1) i h hh2
      simp only [all_rows_from, List.getElem?_cons_succ]
      rw [this]
      have harith : k + 1 + i + 1 = k + (i + 1) + 1 := by omega
      rw [harith]

/-- C7 counterexample: the summary row derived from a chain does not hold
the chain's hop count — two chains for the same original URL with the same
final hop but hop counts 1 and 2 produce identical summary rows. -/
theorem c7_counterexample :
    summary_row "https://u.test/"
        [⟨"https://f.test/", "OK", StatusCode.code 200, "Unknown"⟩] =
      summary_row "https://u.test/"
        [⟨"https://u.test/", "Moved Permanently", StatusCode.code 301, "Unknown"⟩,
         ⟨"https://f.test/", "OK", StatusCode.code 200, "Unknown"⟩] ∧
    ([⟨"https://f.test/", "OK", StatusCode.code 200, "Unknown"⟩] : List Hop).length ≠
      ([⟨"https://u.test/", "Moved Permanently", StatusCode.code 301, "Unknown"⟩,
        ⟨"https://f.test/", "OK", StatusCode.code 200, "Unknown"⟩] : List Hop).length := by
  refine ⟨rfl, by decide⟩

/-- C7 (amended): for every completed chain the summary record holds the
original URL, the final hop's URL, the final hop's status code, and the
final hop's server (no hop count); the detail records hold exactly one row
per hop, each carrying the originating URL and a 1-based step index equal
to the hop's position. -/
theorem summary_detail_projection (orig : String) (chain : List Hop) (fin : Hop)
    (hlast : chain.getLast? = some fin) :
    summary_row orig chain = ⟨orig, fin.url, fin.statusCode, fin.server⟩ ∧
    (all_rows_for orig chain).length = chain.length ∧
    ∀ (i : Nat) (h : Hop), chain[i]? = some h →
      (all_rows_for orig chain)[i]? =
        some (⟨orig, i + 1, h.url, h.statusCode, h.status, h.server⟩ : DetailRow) := by
  refine ⟨?_, all_rows_from_length orig chain 0, ?_⟩
  · simp [summary_row, hlast]
  · intro i h hh
    have := all_rows_from_getElem orig chain 0 i h hh
    simpa using this

/-- Witness for C7 on a concrete two-hop chain. -/
theorem c7_witness :
    summary_row "https://u.test/"
        [⟨"https://u.test/", "Moved Permanently", StatusCode.code 301, "Unknown"⟩,
         ⟨"https://f.test/", "OK", StatusCode.code 200, "Unknown"⟩] =
      ⟨"https://u.test/", "https://f.test/", StatusCode.code 200, "Unknown"⟩ ∧
    (all_rows_for "https://u.test/"
        [⟨"https://u.test/", "Moved Permanently", StatusCode.code 301, "Unknown"⟩,
         ⟨"https://f.test/", "OK", StatusCode.code 200, "Unknown"⟩]).length = 2 :=
  ⟨(summary_detail_projection "https://u.test/"
      [⟨"https://u.test/", "Moved Permanently", StatusCode.code 301, "Unknown"⟩,
       ⟨"https://f.test/", "OK", StatusCode.code 200, "Unknown"⟩]
      ⟨"https://f.test/", "OK", StatusCode.code 200, "Unknown"⟩ rfl).1,
    (summary_detail_projection "https://u.test/"
      [⟨"https://u.test/", "Moved Permanently", StatusCode.code 301, "Unknown"⟩,
       ⟨"https://f.test/", "OK", StatusCode.code 200, "Unknown"⟩]
      ⟨"https://f.test/", "OK", StatusCode.code 200, "Unknown"⟩ rfl).2.1⟩

/-- Membership in the reference first-occurrence list: exactly the
non-blocked input URLs. -/
theorem keepFirstNonBlocked_mem (u : String) :
    ∀ (n : Nat) (l : List String), l.length ≤ n →
      (u ∈ keepFirstNonBlocked l ↔ u ∈ l ∧ is_blocked_url u = false) := by
  intro n
  induction n with
  | zero =>
    intro l hl
    have hnil : l = [] := List.eq_nil_of_length_eq_zero (Nat.le_zero.mp hl)
    subst hnil
    simp [keepFirstNonBlocked]
  | succ n ih =>
    intro l hl
    cases l with
    | nil => simp [keepFirstNonBlocked]
    | cons u0 rest =>
      have hr : rest.length ≤ n := by
        simp only [List.length_cons] at hl
        omega
      by_cases hb : is_blocked_url u0
      · rw [show keepFirstNonBlocked (u0 :: rest) = keepFirstNonBlocked rest from by
          simp [keepFirstNonBlocked, hb]]
        rw [ih rest hr]
        constructor
        · rintro ⟨hm, hnb⟩
          exact ⟨List.mem_cons_of_mem _ hm, hnb⟩
        · rintro ⟨hm, hnb⟩
          rcases List.mem_cons.mp hm with rfl | hm2
          · rw [hb] at hnb
            cases hnb
          · exact ⟨hm2, hnb⟩
      · rw [show keepFirstNonBlocked (u0 :: rest) =
            u0 :: keepFirstNonBlocked (rest.filter (fun v => v != u0)) from by
          simp [keepFirstNonBlocked, hb]]
        have hfl : (rest.filter (fun v => v != u0)).length ≤ n :=
          le_trans (List.length_filter_le _ _) hr
        rw [List.mem_cons, ih _ hfl]
        constructor
        · rintro (rfl | ⟨hmf, hnb⟩)
          · exact ⟨List.mem_cons_self _ _, by simpa using hb⟩
          · obtain ⟨hm2, _⟩ := List.mem_filter.mp hmf
            exact ⟨List.mem_cons_of_mem _ hm2, hnb⟩
        · rintro ⟨hm, hnb⟩
          by_cases he : u = u0
          · exact Or.inl he
          · right
            rcases List.mem_cons.mp hm with rfl | hm2
            · exact absurd rfl he
            · exact ⟨List.mem_filter.mpr ⟨hm2, by simpa using he⟩, hnb⟩

/-- The reference first-occurrence list has no duplicates. -/
theorem keepFirstNonBlocked_nodup :
    ∀ (n : Nat) (l : List String), l.length ≤ n → (keepFirstNonBlocked l).Nodup := by
  intro n
  induction n with
  | zero =>
    intro l hl
    have hnil : l = [] := List.eq_nil_of_length_eq_zero (Nat.le_zero.mp hl)
    subst hnil
    simp [keepFirstNonBlocked]
  | succ n ih =>
    intro l hl
    cases l with
    | nil => simp [keepFirstNonBlocked]
    | cons u0 rest =>
      have hr : rest.length ≤ n := by
        simp only [List.length_cons] at hl
        omega
      by_cases hb : is_blocked_url u0
      · rw [show keepFirstNonBlocked (u0 :: rest) = keepFirstNonBlocked rest from by
          simp [keepFirstNonBlocked, hb]]
        exact ih rest hr
      · rw [show keepFirstNonBlocked (u0 :: rest) =
            u0 :: keepFirstNonBlocked (rest.filter (fun v => v != u0)) from by
          simp [keepFirstNonBlocked, hb]]
        have hfl : (rest.filter (fun v => v != u0)).length ≤ n :=
          le_trans (List.length_filter_le _ _) hr
        refine List.nodup_cons.mpr ⟨?_, ih _ hfl⟩
        intro hmem
        have := (keepFirstNonBlocked_mem u0 n _ hfl).mp hmem
        obtain ⟨hmf, _⟩ := this
        obtain ⟨_, hne⟩ := List.mem_filter.mp hmf
        simp at hne

/-- The accumulating loop of `urls_unique` appends, after any accumulator,
exactly the first occurrences of the non-blocked URLs not already present. -/
theorem urls_unique_aux :
    ∀ (urls acc : List String),
      urls.foldl
        (fun acc url =>
          if is_blocked_url url then acc
          else if url ∈ acc then acc
          else acc ++ [url]) acc =
      acc ++ keepFirstNonBlocked (urls.filter (fun v => !(decide (v ∈ acc)))) := by
  intro urls
  induction urls with
  | nil =>
    intro acc
    simp [keepFirstNonBlocked]
  | cons u rest ih =>
    intro acc
    by_cases hb : is_blocked_url u
    · simp only [List.foldl_cons, List.filter_cons, if_pos hb]
      by_cases hm : u ∈ acc
      · rw [if_neg (show ¬((!decide (u ∈ acc)) = true) from by simp [hm])]
        exact ih acc
      · rw [if_pos (show (!decide (u ∈ acc)) = true from by simp [hm])]
        rw [show keepFirstNonBlocked (u :: rest.filter (fun v => !(decide (v ∈ acc)))) =
            keepFirstNonBlocked (rest.filter (fun v => !(decide (v ∈ acc)))) from by
          simp [keepFirstNonBlocked, hb]]
        exact ih acc
    · simp only [List.foldl_cons, List.filter_cons, if_neg hb]
      by_cases hm : u ∈ acc
      · rw [if_pos hm]
        rw [if_neg (show ¬((!decide (u ∈ acc)) = true) from by simp [hm])]
        exact ih acc
      · rw [if_neg hm]
        rw [if_pos (show (!decide (u ∈ acc)) = true from by simp [hm])]
        rw [ih (acc ++ [u])]
        rw [show keepFirstNonBlocked (u :: rest.filter (fun v => !(decide (v ∈ acc)))) =
            u :: keepFirstNonBlocked
              ((rest.filter (fun v => !(decide (v ∈ acc)))).filter (fun v => v != u)) from by
          simp [keepFirstNonBlocked, hb]]
        rw [List.filter_filter]
        have hptw : rest.filter (fun v => !(decide (v ∈ acc ++ [u]))) =
            rest.filter (fun v => (v != u) && !(decide (v ∈ acc))) := by
          apply List.filter_congr
          intro v _
          by_cases h1 : v ∈ acc <;> by_cases h2 : v = u <;>
            simp [h1, h2, List.mem_append]
        rw [hptw]
        simp

/-- C9: a URL is excluded from dispatch iff its lowercase form contains
`"b2b-b"`; the dispatched list equals the first occurrences of the
non-blocked URLs in input order, so it is duplicate-free and contains no
blocked URL. -/
theorem urls_unique_spec (urls : List String) :
    urls_unique urls = keepFirstNonBlocked urls ∧
    (∀ u, u ∈ urls_unique urls ↔ u ∈ urls ∧ is_blocked_url u = false) ∧
    (urls_unique urls).Nodup := by
  have h1 : urls_unique urls = keepFirstNonBlocked urls := by
    have h2 := urls_unique_aux urls []
    have h3 : urls.filter (fun v => !(decide (v ∈ ([] : List String)))) = urls := by
      simp
    rw [h3] at h2
    simpa [urls_unique] using h2
  refine ⟨h1, ?_, ?_⟩
  · intro u
    rw [h1]
    exact keepFirstNonBlocked_mem u urls.length urls le_rfl
  · rw [h1]
    exact keepFirstNonBlocked_nodup urls.length urls le_rfl

/-- String append concatenates the underlying character lists. -/
theorem data_append (s t : String) : (s ++ t).data = s.data ++ t.data :=
  rfl

/-- Lowering acts on the underlying character list. -/
theorem lowerAscii_data (s : String) : (lowerAscii s).data = s.data.map Char.toLower :=
  rfl

/-- The Boolean prefix test agrees with the library one. -/
theorem hasPre_eq (pat : List Char) : ∀ s, hasPre pat s = pat.isPrefixOf s := by
  induction pat with
  | nil => intro s; cases s <;> rfl
  | cons a as ih =>
    intro s
    cases s with
    | nil => rfl
    | cons b bs => simp [hasPre, List.isPrefixOf, ih]

/-- The Boolean substring test decides contiguous-substring containment. -/
theorem hasSub_iff (pat : List Char) (hne : pat ≠ []) :
    ∀ s, hasSub pat s = true ↔ pat <:+: s := by
  intro s
  induction s with
  | nil =>
    simp [hasSub, List.isEmpty_iff, List.infix_nil, hne]
  | cons c rest ih =>
    simp only [hasSub, Bool.or_eq_true, hasPre_eq, List.isPrefixOf_iff_prefix, ih,
      List.infix_cons_iff]

/-- Splitting property of substring containment at a character absent from
the pattern: an occurrence cannot straddle that character. -/
theorem infix_split {α : Type} {pat xs ys : List α} {c : α}
    (hne : pat ≠ []) (hc : c ∉ pat) :
    pat <:+: xs ++ c :: ys ↔ pat <:+: xs ∨ pat <:+: ys := by
  constructor
  · rintro ⟨s, t, heq⟩
    rcases List.append_eq_append_iff.mp heq with ⟨a, hxs, _⟩ | ⟨d, hsp, hys⟩
    · left
      exact ⟨s, a, hxs.symm⟩
    · rcases List.append_eq_append_iff.mp hsp with ⟨e, hxs2, hpat⟩ | ⟨f, hs2, hd⟩
      · cases d with
        | nil =>
          left
          have hpe : e = pat := by simpa using hpat.symm
          refine ⟨s, [], ?_⟩
          rw [hxs2, hpe]
          simp
        | cons d0 ds =>
          exfalso
          have hd0 : d0 = c := by
            have := hys
            simp only [List.cons_append] at this
            exact (List.cons.inj this).1.symm
          apply hc
          rw [hpat, hd0]
          exact List.mem_append_right _ (List.mem_cons_self _ _)
      · cases f with
        | nil =>
          exfalso
          rw [hd] at hys
          simp only [List.nil_append] at hys
          cases pat with
          | nil => exact hne rfl
          | cons p0 prest =>
            apply hc
            have : p0 = c := by
              simp only [List.cons_append] at hys
              exact (List.cons.inj hys).1.symm
            rw [this]
            exact List.mem_cons_self _ _
        | cons f0 fs =>
          right
          rw [hd] at hys
          have hf0 : f0 = c ∧ ys = fs ++ pat ++ t := by
            simp only [List.cons_append, List.append_assoc] at hys
            have h2 := List.cons.inj hys
            exact ⟨h2.1.symm, by rw [h2.2, List.append_assoc]⟩
          exact ⟨fs, t, hf0.2.symm⟩
  · rintro (⟨s, t, heq⟩ | ⟨s, t, heq⟩)
    · exact ⟨s, t ++ c :: ys, by rw [← heq]; simp⟩
    · exact ⟨xs ++ c :: s, t, by rw [← heq]; simp⟩

/-- Character-list form of a lowered `"k: v"` header item. -/
theorem lower_part_data (k v : String) :
    (lowerAscii (k ++ ": " ++ v)).data =
      (lowerAscii k).data ++ ':' :: ' ' :: (lowerAscii v).data := by
  have h1 : Char.toLower ':' = ':' := by decide
  have h2 : Char.toLower ' ' = ' ' := by decide
  have h3 : (": " : String).data = [':', ' '] := rfl
  simp [lowerAscii_data, data_append, h3, h1, h2]

/-- Character-list form of a lowered `"a | b"` separator join. -/
theorem lower_sep_data (a b : String) :
    (lowerAscii (a ++ " | " ++ b)).data =
      (lowerAscii a).data ++ ' ' :: '|' :: ' ' :: (lowerAscii b).data := by
  have h1 : Char.toLower '|' = '|' := by decide
  have h2 : Char.toLower ' ' = ' ' := by decide
  have h3 : (" | " : String).data = [' ', '|', ' '] := rfl
  simp [lowerAscii_data, data_append, h3, h1, h2]

/-- A pattern without spaces or pipes never matches across the separator. -/
theorem infix_pipe_cons (pat : List Char) (hne : pat ≠ []) (hsp : ' ' ∉ pat)
    (hpi : '|' ∉ pat) (l : List Char) :
    pat <:+: ('|' :: ' ' :: l) ↔ pat <:+: l := by
  have h2 := @infix_split Char pat ['|'] l ' ' hne hsp
  simp only [List.cons_append, List.nil_append] at h2
  rw [h2]
  have h4 := @infix_split Char pat [] [] '|' hne hpi
  simp only [List.nil_append] at h4
  simp only [List.infix_nil, hne, or_self, iff_false] at h4
  simp [h4]

/-- A pattern without spaces or colons matches a lowered `"k: v"` item iff it
matches the lowered name or the lowered value. -/
theorem marker_in_part (pat : List Char) (hne : pat ≠ []) (hsp : ' ' ∉ pat)
    (hco : ':' ∉ pat) (k v : String) :
    pat <:+: (lowerAscii (k ++ ": " ++ v)).data ↔
      pat <:+: (lowerAscii k).data ∨ pat <:+: (lowerAscii v).data := by
  rw [lower_part_data, infix_split hne hco]
  have hsplit := @infix_split Char pat [] ((lowerAscii v).data) ' ' hne hsp
  simp only [List.nil_append] at hsplit
  rw [hsplit]
  simp [List.infix_nil, hne]

/-- A pattern without spaces, pipes, or colons matches the lowered combined
header string iff it matches some lowered header name or value. -/
theorem marker_in_join (pat : List Char) (hne : pat ≠ []) (hsp : ' ' ∉ pat)
    (hpi : '|' ∉ pat) (hco : ':' ∉ pat) :
    ∀ (hs : List (String × String)),
      pat <:+: (lowerAscii (joinSep (hs.map (fun p => p.1 ++ ": " ++ p.2)))).data ↔
        ∃ p ∈ hs, pat <:+: (lowerAscii p.1).data ∨ pat <:+: (lowerAscii p.2).data := by
  intro hs
  induction hs with
  | nil =>
    have h0 : ("" : String).data = [] := rfl
    simp [joinSep, lowerAscii_data, h0, List.infix_nil, hne]
  | cons p rest ih =>
    obtain ⟨k, v⟩ := p
    cases rest with
    | nil =>
      simp only [List.map_cons, List.map_nil, joinSep]
      rw [marker_in_part pat hne hsp hco k v]
      simp
    | cons q rest2 =>
      simp only [List.map_cons, joinSep]
      rw [lower_sep_data, infix_split hne hsp]
      rw [marker_in_part pat hne hsp hco k v]
      rw [infix_pipe_cons pat hne hsp hpi]
      have ih2 := ih
      simp only [List.map_cons, joinSep] at ih2
      rw [ih2]
      simp only [List.mem_cons]
      constructor
      · rintro ((hk | hv) | ⟨p2, hp2, hor⟩)
        · exact ⟨(k, v), Or.inl rfl, Or.inl hk⟩
        · exact ⟨(k, v), Or.inl rfl, Or.inr hv⟩
        · exact ⟨p2, Or.inr hp2, hor⟩
      · rintro ⟨p2, hp2 | hp2, hor⟩
        · rw [hp2] at hor
          exact Or.inl hor
        · exact Or.inr ⟨p2, hp2, hor⟩

/-- Two Booleans agreeing as propositions are equal. -/
theorem bool_eq_of_iff {a b : Bool} (h : (a = true) ↔ (b = true)) : a = b := by
  cases a <;> cases b <;> simp_all

/-- The Akamai fingerprint test on the combined header string coincides with
the per-header-name/value test: the fingerprints contain no space, pipe, or
colon, so no occurrence can straddle the serialization separators. -/
theorem akamai_cond (hs : List (String × String)) :
    akamai_indicators.any (fun m =>
        containsSub (lowerAscii (joinSep (hs.map (fun p => p.1 ++ ": " ++ p.2))))
          (lowerAscii m)) =
      hs.any (fun p => akamai_indicators.any (fun m =>
        containsSub (lowerAscii p.1) (lowerAscii m) ||
        containsSub (lowerAscii p.2) (lowerAscii m))) := by
  apply bool_eq_of_iff
  have hgood : ∀ m ∈ akamai_indicators,
      (lowerAscii m).data ≠ [] ∧ ' ' ∉ (lowerAscii m).data ∧ '|' ∉ (lowerAscii m).data ∧
      ':' ∉ (lowerAscii m).data := by decide
  constructor
  · intro h
    obtain ⟨m, hm, hsub⟩ := List.any_eq_true.mp h
    obtain ⟨hne, hsp, hpi, hco⟩ := hgood m hm
    have hinf : (lowerAscii m).data <:+:
        (lowerAscii (joinSep (hs.map (fun p => p.1 ++ ": " ++ p.2)))).data :=
      (hasSub_iff _ hne _).mp hsub
    obtain ⟨p, hp, hor⟩ := (marker_in_join _ hne hsp hpi hco hs).mp hinf
    apply List.any_eq_true.mpr
    refine ⟨p, hp, ?_⟩
    apply List.any_eq_true.mpr
    refine ⟨m, hm, ?_⟩
    rw [Bool.or_eq_true]
    rcases hor with h1 | h1
    · exact Or.inl ((hasSub_iff _ hne _).mpr h1)
    · exact Or.inr ((hasSub_iff _ hne _).mpr h1)
  · intro h
    obtain ⟨p, hp, hany⟩ := List.any_eq_true.mp h
    obtain ⟨m, hm, hsub⟩ := List.any_eq_true.mp hany
    obtain ⟨hne, hsp, hpi, hco⟩ := hgood m hm
    apply List.any_eq_true.mpr
    refine ⟨m, hm, ?_⟩
    apply (hasSub_iff _ hne _).mpr
    apply (marker_in_join _ hne hsp hpi hco hs).mpr
    refine ⟨p, hp, ?_⟩
    rw [Bool.or_eq_true] at hsub
    rcases hsub with h1 | h1
    · exact Or.inl ((hasSub_iff _ hne _).mp h1)
    · exact Or.inr ((hasSub_iff _ hne _).mp h1)

/-- C8: `get_server_name` behaves exactly as the specification describes:
report `"Akamai"` when a CDN fingerprint occurs (case-insensitively) in a
header name or value; otherwise report from the first present header of the
priority list; otherwise `"Unknown"`. -/
theorem get_server_name_follows_spec (hs : List (String × String)) :
    get_server_name hs = serverNameSpec hs := by
  simp only [get_server_name, serverNameSpec]
  rw [akamai_cond hs]
